import Mathlib

/-!
Shallow embedding of the ledger core of `account.py` (class `AccountingApp`).

Python strings are modelled as `List Char`, monetary amounts as `Int` numbers
of cents (the source quantizes every amount to `Decimal` scale 2, so an amount
is exactly an integer count of cents), and timestamps as `Nat` microseconds
since the epoch (Python `datetime.now()` carries microsecond precision; the
display/delete format `"%Y-%m-%d %H:%M:%S"` keeps only whole seconds).
The in-memory polars DataFrame `self.df` is a `List Record` in row order.
-/

/-- A Python string, modelled as its list of characters. -/
abbrev Str := List Char

/-- The reserved delimiter joining the three contact slots (`"$"` in the source). -/
def delim : Char := '$'

/-- Whitespace test used by Python `str.strip()`. -/
def pyWS (c : Char) : Bool := c.isWhitespace

/-- Python `str.strip()`: drop leading and trailing whitespace. -/
def strip (s : Str) : Str := ((s.dropWhile pyWS).reverse.dropWhile pyWS).reverse

/-- `"$".join([a, b, c])` from `submit_entry` (src line 337): the three slots
joined by the delimiter, empty slots included literally. -/
def join3 (a b c : Str) : Str := a ++ delim :: (b ++ delim :: c)

/-- polars `str.split("$")`: split a string on every delimiter occurrence.
Splitting the empty string yields `[[]]`, matching Python/polars `split`. -/
def splitD : Str → List Str
  | [] => [[]]
  | c :: rest =>
    if c = delim then [] :: splitD rest
    else
      match splitD rest with
      | [] => [[c]]
      | f :: fs => (c :: f) :: fs

/-- One row of the DataFrame (schema `SCHEMA`, src lines 33-39): contacts
string, payment method, details, amount (Decimal scale 2 = cents), timestamp. -/
structure Record where
  contacts : Str
  payment_method : Str
  details : Str
  amount : Int
  timestamp : Nat
deriving DecidableEq, Repr

/-- The in-memory DataFrame `self.df`, as its list of rows in order. -/
abbrev Store := List Record

/-- The membership filter `pl.col("contacts").str.split("$").list.contains(v)`
used both by the submit-path scan (src lines 343-345) and by
`query_records` (src lines 410-412): exact list membership, not substring. -/
def matchesContact (v : Str) (r : Record) : Bool := (splitD r.contacts).contains v

/-- Validation failures surfaced as warning boxes in the source. -/
inductive ValidationError
  | emptyContacts
  | emptyQuery
deriving DecidableEq, Repr

/-- The scan of `submit_entry` (src lines 339-348): for each non-empty input
value in slot order, filter the store on exact slot membership; the first
non-empty filter result contributes its first row's contacts string. -/
def findExisting (store : Store) : List Str → Option Str
  | [] => none
  | v :: rest =>
    if v ≠ [] then
      match store.find? (matchesContact v) with
      | some r => some r.contacts
      | none => findExisting store rest
    else findExisting store rest

/-- `existing_contact` resolution of `submit_entry` (src lines 339-348),
including the `self.df.height > 0` guard. -/
def resolveContacts (store : Store) (qq wechat taobao : Str) : Option Str :=
  if store.length > 0 then findExisting store [qq, wechat, taobao] else none

/-- The reserved internal sentinel identity `"内部交易$内部交易$内部交易"` (src line 374). -/
def internalContacts : Str := "内部交易$内部交易$内部交易".toList

/-- The internal-transfer payment method marker `"（内部交易）"` (src line 379). -/
def internalMethod : Str := "（内部交易）".toList

/-- `submit_entry` (src lines 327-388), with the GUI field reads replaced by
parameters: raw slot inputs, payment method, raw details, the amount already
quantized to cents, the creation timestamp, and the internal-transaction
checkbox state.  Returns the new store, or a validation error leaving the
store untouched. -/
def submit_entry (store : Store) (qqRaw wechatRaw taobaoRaw : Str)
    (payment detailsRaw : Str) (amount : Int) (timestamp : Nat)
    (internal : Bool) : Except ValidationError Store :=
  let qq := strip qqRaw
  let wechat := strip wechatRaw
  let taobao := strip taobaoRaw
  if qq = [] ∧ wechat = [] ∧ taobao = [] then
    .error .emptyContacts
  else
    let contacts := join3 qq wechat taobao
    let existing := resolveContacts store qq wechat taobao
    let details := strip detailsRaw
    let final_contacts := existing.getD contacts
    let newRow : Record := ⟨final_contacts, payment, details, amount, timestamp⟩
    let store1 := store ++ [newRow]
    if internal then
      let offsetRow : Record := ⟨internalContacts, internalMethod, details, -amount, timestamp⟩
      .ok (store1 ++ [offsetRow])
    else
      .ok store1

/-- `query_records` (src lines 404-421), result part: the filtered rows and
their exact decimal total (`sum(filtered_df["amount"].to_list())`, Python
`Decimal` addition). -/
def query_records (store : Store) (contactRaw : Str) :
    Except ValidationError (List Record × Int) :=
  let contact := strip contactRaw
  if contact = [] then .error .emptyQuery
  else
    let filtered := store.filter (matchesContact contact)
    .ok (filtered, (filtered.map (·.amount)).sum)

/-- `strftime("%Y-%m-%d %H:%M:%S")` on a microsecond timestamp: the format has
second precision, so it exposes exactly the whole-second part. -/
def fmtTs (ts : Nat) : Nat := ts / 1000000

/-- The exact tuple test of `delete_selected_record` (src lines 500-507). -/
def tupleMatch (contacts payment details : Str) (tsSec : Nat) (r : Record) : Bool :=
  fmtTs r.timestamp = tsSec ∧ r.contacts = contacts ∧
    r.payment_method = payment ∧ r.details = details

/-- `delete_selected_record` (src lines 487-509), store update part: keep
every row whose tuple does not equal the input tuple. -/
def delete_selected (store : Store) (contacts payment details : Str)
    (tsSec : Nat) : Store :=
  store.filter (fun r => ! tupleMatch contacts payment details tsSec r)

/-- Group total of `populate_totals_table` (src lines 470-474): the exact
decimal sum of the amounts of the rows with the given payment method. -/
def totalFor (store : Store) (m : Str) : Int :=
  ((store.filter (fun r => r.payment_method = m)).map (·.amount)).sum

/-- The payment methods present in the store, first occurrence order
(the group keys of `group_by("payment_method")` before sorting). -/
def methodsOf (store : Store) : List Str := (store.map (·.payment_method)).dedup

/-- `populate_totals_table` (src lines 465-485): one `(method, total)` row
per distinct payment method, totals by exact decimal addition. -/
def totals_table (store : Store) : List (Str × Int) :=
  (methodsOf store).map (fun m => (m, totalFor store m))

/-- Modelled from the spec: the columnar on-disk format of the backing file
(`accounts.parquet`).  The parquet codec itself is third-party library code
(`pl.write_parquet` / `pl.read_parquet`); per §6 of the spec it stores the
five schema columns with exact typed round-tripping, so a written file is its
five column vectors. -/
structure FileData where
  contactsCol : List Str
  paymentCol : List Str
  detailsCol : List Str
  amountCol : List Int
  tsCol : List Nat
deriving DecidableEq, Repr

/-- Column-wise serialization of the store (the write half of the parquet
round trip, modelled from the spec's §6 schema). -/
def toColumns (s : Store) : FileData :=
  ⟨s.map (·.contacts), s.map (·.payment_method), s.map (·.details),
    s.map (·.amount), s.map (·.timestamp)⟩

/-- Re-assembling rows from the five columns (the read half of the parquet
round trip, modelled from the spec's §6 schema). -/
def zipRecords : List Str → List Str → List Str → List Int → List Nat → Store
  | c :: cs, p :: ps, d :: ds, x :: xs, t :: ts =>
    ⟨c, p, d, x, t⟩ :: zipRecords cs ps ds xs ts
  | _, _, _, _, _ => []

/-- `load_data` (src lines 206-210): if the backing file exists, parse it into
the in-memory collection; if absent (`none`), start from the empty frame of
the fixed schema. -/
def load_data : Option FileData → Store
  | none => []
  | some f => zipRecords f.contactsCol f.paymentCol f.detailsCol f.amountCol f.tsCol

/-- The file content produced by `save_data` (src line 213):
`self.df.write_parquet(DATA_FILE)` serializes the whole in-memory frame. -/
def save_data (s : Store) : Option FileData := some (toColumns s)

/-- The application state visible across one operation: the in-memory frame
`self.df` and the backing file `accounts.parquet`. -/
structure AppState where
  df : Store
  file : Option FileData
deriving DecidableEq, Repr

/-- `submit_entry` at the application level: on success the new frame is
stored and `save_data` rewrites the backing file (src line 388); on a
validation failure the method returns early (src lines 332-334), leaving
frame and file untouched. -/
def submit_app (app : AppState) (qqRaw wRaw tRaw payment detailsRaw : Str)
    (amount : Int) (ts : Nat) (internal : Bool) :
    AppState × Option ValidationError :=
  match submit_entry app.df qqRaw wRaw tRaw payment detailsRaw amount ts internal with
  | .error e => (app, some e)
  | .ok df' => (⟨df', save_data df'⟩, none)

/-- `query_records` at the application level: it only reads `self.df`
(src lines 404-421); no assignment to the frame or file occurs. -/
def query_app (app : AppState) (contactRaw : Str) :
    AppState × Except ValidationError (List Record × Int) :=
  (app, query_records app.df contactRaw)

/-- The file-level states `accounts.parquet` can be in while `save_data`
runs: missing, opened-for-write but not completely written, or complete. -/
inductive FileSt
  | absent
  | truncated
  | full (f : FileData)
deriving DecidableEq, Repr

/-- What the next `load_data` sees for each file-level state: a missing file
yields the empty frame (src lines 206-210), a complete parquet file parses to
its rows, and a truncated parquet file is unreadable (`none`). -/
def readBack : FileSt → Option Store
  | .absent => some []
  | .truncated => none
  | .full f => some (load_data (some f))

/-- The destination-path operations performed by one `save_data` call
(src line 213): `write_parquet(DATA_FILE)` opens `DATA_FILE` itself for
writing — truncating whatever was there — and then streams the serialized
frame to completion.  No temporary file and no rename is involved. -/
inductive SaveStep
  | openTrunc
  | writeAll
deriving DecidableEq, Repr

/-- The step sequence of one `save_data` call on the destination path. -/
def save_steps : List SaveStep := [.openTrunc, .writeAll]

/-- Effect of one save step on the backing file. -/
def applyStep (new : Store) : FileSt → SaveStep → FileSt
  | _, .openTrunc => .truncated
  | _, .writeAll => .full (toColumns new)

/-- Run a prefix of the save steps (a crash mid-save executes only a proper
prefix of `save_steps`). -/
def runSteps (new : Store) : FileSt → List SaveStep → FileSt
  | fs, [] => fs
  | fs, st :: rest => runSteps new (applyStep new fs st) rest

/-- One user-visible mutating operation of the app, with all GUI inputs as
payload: a submit (src lines 327-388) or a row deletion (src lines 487-509). -/
inductive Op
  | submit (qqRaw wRaw tRaw payment detailsRaw : Str) (amount : Int) (ts : Nat)
      (internal : Bool)
  | delete (contacts payment details : Str) (tsSec : Nat)

/-- Apply one operation to the store; a rejected submit leaves it unchanged. -/
def applyOp (store : Store) : Op → Store
  | .submit qq w t p d amt ts internal =>
    match submit_entry store qq w t p d amt ts internal with
    | .ok s' => s'
    | .error _ => store
  | .delete c p d ts => delete_selected store c p d ts

/-- Run a sequence of operations from a starting store. -/
def runOps : Store → List Op → Store
  | s, [] => s
  | s, op :: rest => runOps (applyOp s op) rest

/-- An operation whose raw slot inputs contain no delimiter character
(deletions add no rows, so they carry no such restriction). -/
def cleanOp : Op → Bool
  | .submit qq w t _ _ _ _ _ => ¬ delim ∈ qq ∧ ¬ delim ∈ w ∧ ¬ delim ∈ t
  | .delete _ _ _ _ => true

/-! ### Basic lemmas about splitting, joining and stripping -/

theorem splitD_ne_nil (s : Str) : splitD s ≠ [] := by
  induction s with
  | nil => simp [splitD]
  | cons c rest ih =>
    simp only [splitD]
    split
    · simp
    · cases h : splitD rest with
      | nil => simp
      | cons f fs => simp

theorem splitD_no_delim {a : Str} (h : delim ∉ a) : splitD a = [a] := by
  induction a with
  | nil => rfl
  | cons c rest ih =>
    have hc : c ≠ delim := fun hc => h (hc ▸ List.mem_cons_self c rest)
    have hrest : delim ∉ rest := fun hm => h (List.mem_cons_of_mem c hm)
    simp only [splitD, if_neg hc, ih hrest]

theorem splitD_append_delim {a : Str} (t : Str) (h : delim ∉ a) :
    splitD (a ++ delim :: t) = a :: splitD t := by
  induction a with
  | nil => simp [splitD]
  | cons c rest ih =>
    have hc : c ≠ delim := fun hc => h (hc ▸ List.mem_cons_self c rest)
    have hrest : delim ∉ rest := fun hm => h (List.mem_cons_of_mem c hm)
    simp only [List.cons_append, splitD, if_neg hc, List.append_eq, ih hrest]

theorem splitD_join3 {a b c : Str} (ha : delim ∉ a) (hb : delim ∉ b)
    (hc : delim ∉ c) : splitD (join3 a b c) = [a, b, c] := by
  unfold join3
  rw [splitD_append_delim _ ha, splitD_append_delim _ hb, splitD_no_delim hc]

theorem mem_strip {x : Char} {s : Str} (h : x ∈ strip s) : x ∈ s := by
  unfold strip at h
  rw [List.mem_reverse] at h
  have h1 := (List.dropWhile_suffix pyWS).subset h
  rw [List.mem_reverse] at h1
  exact (List.dropWhile_suffix pyWS).subset h1

theorem strip_no_delim {s : Str} (h : delim ∉ s) : delim ∉ strip s :=
  fun hm => h (mem_strip hm)

/-! ### Lemmas about the submit-path resolution scan -/

theorem findExisting_none {store : Store} {vs : List Str}
    (h : findExisting store vs = none) :
    ∀ v ∈ vs, v ≠ [] → store.find? (matchesContact v) = none := by
  induction vs with
  | nil => simp
  | cons v rest ih =>
    intro w hw hwne
    unfold findExisting at h
    split at h
    · rename_i hv
      cases hfind : store.find? (matchesContact v) with
      | some r => rw [hfind] at h; simp at h
      | none =>
        rw [hfind] at h
        rcases List.mem_cons.mp hw with rfl | hwrest
        · exact hfind
        · exact ih h w hwrest hwne
    · rename_i hv
      push_neg at hv
      rcases List.mem_cons.mp hw with rfl | hwrest
      · exact absurd hv hwne
      · exact ih h w hwrest hwne

theorem findExisting_some {store : Store} {vs : List Str} {cc : Str}
    (h : findExisting store vs = some cc) :
    ∃ pre v₀ post r₀, vs = pre ++ v₀ :: post ∧
      (∀ v ∈ pre, v = [] ∨ store.find? (matchesContact v) = none) ∧
      v₀ ≠ [] ∧ store.find? (matchesContact v₀) = some r₀ ∧ cc = r₀.contacts := by
  induction vs with
  | nil => simp [findExisting] at h
  | cons v rest ih =>
    unfold findExisting at h
    split at h
    · rename_i hv
      cases hfind : store.find? (matchesContact v) with
      | some r =>
        rw [hfind] at h
        refine ⟨[], v, rest, r, rfl, by simp, hv, hfind, ?_⟩
        simpa using h.symm
      | none =>
        rw [hfind] at h
        obtain ⟨pre, v₀, post, r₀, hvs, hpre, hv₀, hfind₀, hcc⟩ := ih h
        refine ⟨v :: pre, v₀, post, r₀, by rw [hvs]; rfl, ?_, hv₀, hfind₀, hcc⟩
        intro w hw
        rcases List.mem_cons.mp hw with rfl | hwpre
        · exact Or.inr hfind
        · exact hpre w hwpre
    · rename_i hv
      push_neg at hv
      obtain ⟨pre, v₀, post, r₀, hvs, hpre, hv₀, hfind₀, hcc⟩ := ih h
      refine ⟨v :: pre, v₀, post, r₀, by rw [hvs]; rfl, ?_, hv₀, hfind₀, hcc⟩
      intro w hw
      rcases List.mem_cons.mp hw with rfl | hwpre
      · exact Or.inl hv
      · exact hpre w hwpre

theorem resolve_some_mem {store : Store} {a b c cc : Str}
    (h : resolveContacts store a b c = some cc) :
    ∃ r ∈ store, cc = r.contacts := by
  unfold resolveContacts at h
  split at h
  · obtain ⟨pre, v₀, post, r₀, _, _, _, hfind₀, hcc⟩ := findExisting_some h
    exact ⟨r₀, List.mem_of_find?_eq_some hfind₀, hcc⟩
  · simp at h

theorem findExisting_append_stable {store : Store} {new : Record} {vs : List Str}
    (h : ∀ v ∈ vs, v ≠ [] → matchesContact v new = true →
      (store.find? (matchesContact v)).isSome) :
    findExisting (store ++ [new]) vs = findExisting store vs := by
  induction vs with
  | nil => rfl
  | cons v rest ih =>
    have hrest : ∀ v ∈ rest, v ≠ [] → matchesContact v new = true →
        (store.find? (matchesContact v)).isSome :=
      fun w hw => h w (List.mem_cons_of_mem v hw)
    unfold findExisting
    split
    · rename_i hv
      rw [List.find?_append]
      cases hfind : store.find? (matchesContact v) with
      | some r => simp [Option.or]
      | none =>
        have hnm : matchesContact v new = false := by
          cases hnm : matchesContact v new with
          | false => rfl
          | true =>
            have := h v (List.mem_cons_self v rest) hv hnm
            rw [hfind] at this
            simp at this
        have : List.find? (matchesContact v) [new] = none := by
          simp [List.find?, hnm]
        rw [this]
        simp only [Option.or]
        exact ih hrest
    · exact ih hrest

theorem findExisting_append_right {store : Store} {new : Record} {vs : List Str}
    (h : findExisting store vs = none) :
    findExisting (store ++ [new]) vs = findExisting [new] vs := by
  induction vs with
  | nil => rfl
  | cons v rest ih =>
    unfold findExisting at h ⊢
    split
    · rename_i hv
      rw [if_pos hv] at h
      cases hfind : store.find? (matchesContact v) with
      | some r => rw [hfind] at h; simp at h
      | none =>
        rw [hfind] at h
        rw [List.find?_append, hfind]
        simp only [Option.or]
        cases hfind1 : List.find? (matchesContact v) [new] with
        | some r => rfl
        | none => exact ih h
    · rename_i hv
      rw [if_neg hv] at h
      exact ih h

theorem findExisting_all_match {l : Store} {r : Record} {vs : List Str}
    (hex : ∃ v ∈ vs, v ≠ [])
    (hall : ∀ v ∈ vs, v ≠ [] → l.find? (matchesContact v) = some r) :
    findExisting l vs = some r.contacts := by
  induction vs with
  | nil => simp at hex
  | cons v rest ih =>
    unfold findExisting
    split
    · rename_i hv
      rw [hall v (List.mem_cons_self v rest) hv]
    · rename_i hv
      push_neg at hv
      have hex' : ∃ w ∈ rest, w ≠ [] := by
        obtain ⟨w, hw, hwne⟩ := hex
        rcases List.mem_cons.mp hw with rfl | hwrest
        · exact absurd hv hwne
        · exact ⟨w, hwrest, hwne⟩
      exact ih hex' (fun w hw => hall w (List.mem_cons_of_mem v hw))

theorem findExisting_nil (vs : List Str) : findExisting [] vs = none := by
  induction vs with
  | nil => rfl
  | cons v rest ih =>
    unfold findExisting
    split
    · rw [List.find?_nil]; exact ih
    · exact ih

theorem submit_entry_ok_false {store : Store} {qqRaw wRaw tRaw payment detailsRaw : Str}
    {amount : Int} {ts : Nat}
    (hne : ¬(strip qqRaw = [] ∧ strip wRaw = [] ∧ strip tRaw = [])) :
    submit_entry store qqRaw wRaw tRaw payment detailsRaw amount ts false =
      .ok (store ++ [⟨(resolveContacts store (strip qqRaw) (strip wRaw) (strip tRaw)).getD
          (join3 (strip qqRaw) (strip wRaw) (strip tRaw)),
        payment, strip detailsRaw, amount, ts⟩]) := by
  unfold submit_entry
  rw [if_neg hne]
  rfl

theorem submit_entry_ok_true {store : Store} {qqRaw wRaw tRaw payment detailsRaw : Str}
    {amount : Int} {ts : Nat}
    (hne : ¬(strip qqRaw = [] ∧ strip wRaw = [] ∧ strip tRaw = [])) :
    submit_entry store qqRaw wRaw tRaw payment detailsRaw amount ts true =
      .ok (store ++ [⟨(resolveContacts store (strip qqRaw) (strip wRaw) (strip tRaw)).getD
          (join3 (strip qqRaw) (strip wRaw) (strip tRaw)),
        payment, strip detailsRaw, amount, ts⟩,
        ⟨internalContacts, internalMethod, strip detailsRaw, -amount, ts⟩]) := by
  unfold submit_entry
  rw [if_neg hne]
  simp

/-! ### Claim theorems -/

/-- C1: whenever some non-empty trimmed slot input of a submission matches a
stored identity, the new Record's canonical identity is the whole contacts
string of the first matching stored record (first record, in store order,
matching the first slot value that matches at all), replacing the freshly
built candidate; and submitting the same three identifiers twice yields two
Records sharing exactly one canonical identity string. -/
theorem submit_merge_first_match :
    (∀ (store : Store) (qqRaw wRaw tRaw payment detailsRaw : Str)
        (amount : Int) (ts : Nat),
      (∃ r ∈ store, ∃ v ∈ [strip qqRaw, strip wRaw, strip tRaw],
        v ≠ [] ∧ matchesContact v r = true) →
      ∃ r₀ ∈ store, ∃ pre v₀ post,
        [strip qqRaw, strip wRaw, strip tRaw] = pre ++ v₀ :: post ∧
        (∀ v ∈ pre, v = [] ∨ store.find? (matchesContact v) = none) ∧
        v₀ ≠ [] ∧ store.find? (matchesContact v₀) = some r₀ ∧
        submit_entry store qqRaw wRaw tRaw payment detailsRaw amount ts false
          = .ok (store ++ [⟨r₀.contacts, payment, strip detailsRaw, amount, ts⟩]))
    ∧
    (∀ (store : Store) (qqRaw wRaw tRaw p1 d1 : Str) (a1 : Int) (t1 : Nat)
        (p2 d2 : Str) (a2 : Int) (t2 : Nat) (s1 s2 : Store),
      submit_entry store qqRaw wRaw tRaw p1 d1 a1 t1 false = .ok s1 →
      submit_entry s1 qqRaw wRaw tRaw p2 d2 a2 t2 false = .ok s2 →
      ∃ r1 r2, s1 = store ++ [r1] ∧ s2 = store ++ [r1, r2] ∧
        r1.contacts = r2.contacts) := by
  constructor
  · intro store qqRaw wRaw tRaw payment detailsRaw amount ts h
    obtain ⟨r, hr, v, hv, hvne, hm⟩ := h
    have hne : ¬(strip qqRaw = [] ∧ strip wRaw = [] ∧ strip tRaw = []) := by
      rintro ⟨h1, h2, h3⟩
      simp only [List.mem_cons, List.mem_singleton, List.not_mem_nil, or_false] at hv
      rcases hv with rfl | rfl | rfl
      · exact hvne h1
      · exact hvne h2
      · exact hvne h3
    cases hfe : findExisting store [strip qqRaw, strip wRaw, strip tRaw] with
    | none =>
      have := findExisting_none hfe v hv hvne
      rw [List.find?_eq_none] at this
      exact absurd hm (by simpa using this r hr)
    | some cc =>
      have hlen : store.length > 0 :=
        List.length_pos.mpr (List.ne_nil_of_mem hr)
      have hres : resolveContacts store (strip qqRaw) (strip wRaw) (strip tRaw)
          = some cc := by
        unfold resolveContacts
        rw [if_pos hlen]
        exact hfe
      obtain ⟨pre, v₀, post, r₀, hvs, hpre, hv₀, hfind₀, hcc⟩ :=
        findExisting_some hfe
      refine ⟨r₀, List.mem_of_find?_eq_some hfind₀, pre, v₀, post, hvs, hpre,
        hv₀, hfind₀, ?_⟩
      rw [submit_entry_ok_false hne, hres]
      simp only [Option.getD_some]
      rw [hcc]
  · intro store qqRaw wRaw tRaw p1 d1 a1 t1 p2 d2 a2 t2 s1 s2 hs1 hs2
    have hne : ¬(strip qqRaw = [] ∧ strip wRaw = [] ∧ strip tRaw = []) := by
      intro hall
      unfold submit_entry at hs1
      rw [if_pos hall] at hs1
      simp at hs1
    rw [submit_entry_ok_false hne] at hs1 hs2
    set a := strip qqRaw with ha
    set b := strip wRaw with hb
    set c := strip tRaw with hc
    set cc1 := (resolveContacts store a b c).getD (join3 a b c) with hcc1
    have hs1' : s1 = store ++ [⟨cc1, p1, strip d1, a1, t1⟩] := by
      injection hs1.symm
    set r1 : Record := ⟨cc1, p1, strip d1, a1, t1⟩ with hr1
    have hcc2 : (resolveContacts (store ++ [r1]) a b c).getD (join3 a b c)
        = cc1 := by
      have hlen : (store ++ [r1]).length > 0 := by simp
      unfold resolveContacts
      rw [if_pos hlen]
      cases hres : resolveContacts store a b c with
      | some cc =>
        obtain ⟨rr, hrr, hrrcc⟩ := resolve_some_mem hres
        have hfe : findExisting store [a, b, c] = some cc := by
          unfold resolveContacts at hres
          split at hres
          · exact hres
          · simp at hres
        have hstable : findExisting (store ++ [r1]) [a, b, c]
            = findExisting store [a, b, c] := by
          apply findExisting_append_stable
          intro v hv hvne hmv
          have hr1cc : r1.contacts = rr.contacts := by
            rw [hr1]
            simp only [hcc1, hres, Option.getD_some]
            exact hrrcc
          have hmrr : matchesContact v rr = true := by
            unfold matchesContact at hmv ⊢
            rw [← hr1cc]
            exact hmv
          cases hfind : store.find? (matchesContact v) with
          | some r => simp
          | none =>
            rw [List.find?_eq_none] at hfind
            exact absurd hmrr (by simpa using hfind rr hrr)
        rw [hstable, hfe, Option.getD_some, hcc1, hres, Option.getD_some]
      | none =>
        have hfe_none : findExisting store [a, b, c] = none := by
          cases store with
          | nil => exact findExisting_nil _
          | cons x xs =>
            unfold resolveContacts at hres
            rw [if_pos (by simp)] at hres
            exact hres
        rw [findExisting_append_right hfe_none]
        have hj : cc1 = join3 a b c := by
          rw [hcc1]
          cases hres' : resolveContacts store a b c with
          | some cc =>
            exfalso
            have hfe' : findExisting store [a, b, c] = some cc := by
              unfold resolveContacts at hres'
              split at hres'
              · exact hres'
              · simp at hres'
            rw [hfe_none] at hfe'
            simp at hfe'
          | none => simp
        cases hfe1 : findExisting [r1] [a, b, c] with
        | none =>
          rw [Option.getD_none]
          exact hj.symm
        | some cc =>
          obtain ⟨pre, v₀, post, r₀, hvs, hpre, hv₀, hfind₀, hcc⟩ :=
            findExisting_some hfe1
          have hmem : r₀ ∈ [r1] := List.mem_of_find?_eq_some hfind₀
          have hr₀ : r₀ = r1 := by simpa using hmem
          rw [Option.getD_some, hcc, hr₀]
    refine ⟨r1, ⟨cc1, p2, strip d2, a2, t2⟩, hs1', ?_, rfl⟩
    rw [hs1'] at hs2
    rw [hcc2] at hs2
    have h2 : (store ++ [r1]) ++ [(⟨cc1, p2, strip d2, a2, t2⟩ : Record)] = s2 := by
      injection hs2
    rw [← h2, List.append_assoc]
    rfl

/-- Witness for C1: a stored identity `a$b$c` is matched by a submission with
slot value `a` and reused whole; and two identical submissions to an empty
store share one canonical identity `a$$`. -/
theorem submit_merge_first_match_witness :
    (∃ r ∈ ([⟨['a', '$', 'b', '$', 'c'], ['w'], [], 50, 3⟩] : Store),
      ∃ v ∈ [strip ['a'], strip [], strip []], v ≠ [] ∧ matchesContact v r = true) ∧
    (∃ r₀ ∈ ([⟨['a', '$', 'b', '$', 'c'], ['w'], [], 50, 3⟩] : Store), ∃ pre v₀ post,
      [strip ['a'], strip [], strip []] = pre ++ v₀ :: post ∧
      (∀ v ∈ pre, v = [] ∨
        ([⟨['a', '$', 'b', '$', 'c'], ['w'], [], 50, 3⟩] : Store).find?
          (matchesContact v) = none) ∧
      v₀ ≠ [] ∧
      ([⟨['a', '$', 'b', '$', 'c'], ['w'], [], 50, 3⟩] : Store).find?
        (matchesContact v₀) = some r₀ ∧
      submit_entry [⟨['a', '$', 'b', '$', 'c'], ['w'], [], 50, 3⟩]
          ['a'] [] [] ['w'] [] 100 7 false
        = .ok ([⟨['a', '$', 'b', '$', 'c'], ['w'], [], 50, 3⟩]
            ++ [⟨r₀.contacts, ['w'], strip [], 100, 7⟩])) ∧
    (∃ r1 r2, ([⟨['a', '$', '$'], ['w'], [], 100, 7⟩] : Store) = [] ++ [r1] ∧
      ([⟨['a', '$', '$'], ['w'], [], 100, 7⟩,
        ⟨['a', '$', '$'], ['w'], [], 200, 8⟩] : Store) = [] ++ [r1, r2] ∧
      r1.contacts = r2.contacts) :=
  ⟨by decide,
   submit_merge_first_match.1 [⟨['a', '$', 'b', '$', 'c'], ['w'], [], 50, 3⟩]
     ['a'] [] [] ['w'] [] 100 7 (by decide),
   submit_merge_first_match.2 [] ['a'] [] [] ['w'] [] 100 7 ['w'] [] 200 8
     [⟨['a', '$', '$'], ['w'], [], 100, 7⟩]
     [⟨['a', '$', '$'], ['w'], [], 100, 7⟩, ⟨['a', '$', '$'], ['w'], [], 200, 8⟩]
     rfl rfl⟩

/-- C4: a valid submission with the internal-transaction flag appends exactly
two Records: the primary one, and an offsetting one under the reserved
internal identity with the internal-transfer method marker, the same details
and timestamp, and the negated amount, so the two amounts sum to 0. -/
theorem offsetting_balance :
    ∀ (store : Store) (qqRaw wRaw tRaw payment detailsRaw : Str)
      (amount : Int) (ts : Nat),
    ¬(strip qqRaw = [] ∧ strip wRaw = [] ∧ strip tRaw = []) →
    ∃ r1 r2 : Record,
      submit_entry store qqRaw wRaw tRaw payment detailsRaw amount ts true
        = .ok (store ++ [r1, r2]) ∧
      r1.payment_method = payment ∧ r1.details = strip detailsRaw ∧
      r1.amount = amount ∧ r1.timestamp = ts ∧
      r2.contacts = internalContacts ∧ r2.payment_method = internalMethod ∧
      r2.details = r1.details ∧ r2.timestamp = r1.timestamp ∧
      r2.amount = -r1.amount ∧ r1.amount + r2.amount = 0 := by
  intro store qqRaw wRaw tRaw payment detailsRaw amount ts hne
  exact ⟨_, _, submit_entry_ok_true hne, rfl, rfl, rfl, rfl, rfl, rfl, rfl, rfl,
    rfl, by ring⟩

/-- Witness for C4: submitting 50.00 (5000 cents) with the flag produces the
primary Record and the offsetting internal Record summing to 0. -/
theorem offsetting_balance_witness :
    ¬(strip ['a'] = [] ∧ strip ([] : Str) = [] ∧ strip ([] : Str) = []) ∧
    ∃ r1 r2 : Record,
      submit_entry [] ['a'] [] [] ['w'] [] 5000 7 true = .ok ([] ++ [r1, r2]) ∧
      r1.payment_method = ['w'] ∧ r1.details = strip [] ∧
      r1.amount = 5000 ∧ r1.timestamp = 7 ∧
      r2.contacts = internalContacts ∧ r2.payment_method = internalMethod ∧
      r2.details = r1.details ∧ r2.timestamp = r1.timestamp ∧
      r2.amount = -r1.amount ∧ r1.amount + r2.amount = 0 :=
  ⟨by decide, offsetting_balance [] ['a'] [] [] ['w'] [] 5000 7 (by decide)⟩

/-- C5: an all-empty-slot submission and an empty query both fail with their
validation error and leave the in-memory frame and the backing file exactly
as they were: nothing is appended and nothing is persisted. -/
theorem empty_inputs_rejected :
    (∀ (app : AppState) (qqRaw wRaw tRaw payment detailsRaw : Str)
        (amount : Int) (ts : Nat) (internal : Bool),
      strip qqRaw = [] → strip wRaw = [] → strip tRaw = [] →
      submit_app app qqRaw wRaw tRaw payment detailsRaw amount ts internal
        = (app, some .emptyContacts)) ∧
    (∀ (app : AppState) (contactRaw : Str), strip contactRaw = [] →
      query_app app contactRaw = (app, .error .emptyQuery)) := by
  constructor
  · intro app qqRaw wRaw tRaw payment detailsRaw amount ts internal h1 h2 h3
    have hsub : submit_entry app.df qqRaw wRaw tRaw payment detailsRaw amount ts
        internal = .error .emptyContacts := by
      unfold submit_entry
      rw [if_pos ⟨h1, h2, h3⟩]
    unfold submit_app
    rw [hsub]
  · intro app contactRaw h
    have hq : query_records app.df contactRaw = .error .emptyQuery := by
      unfold query_records
      rw [if_pos h]
    unfold query_app
    rw [hq]

/-- Witness for C5: whitespace-only slot inputs and a whitespace-only query
are rejected and mutate nothing. -/
theorem empty_inputs_rejected_witness :
    (strip [' '] = [] ∧
      submit_app ⟨[], none⟩ [' '] [] [] ['w'] [] 5 7 false
        = (⟨[], none⟩, some .emptyContacts)) ∧
    query_app ⟨[], none⟩ [' '] = (⟨[], none⟩, .error .emptyQuery) :=
  ⟨⟨by decide, empty_inputs_rejected.1 ⟨[], none⟩ [' '] [] [] ['w'] [] 5 7 false
      (by decide) (by decide) (by decide)⟩,
    empty_inputs_rejected.2 ⟨[], none⟩ [' '] (by decide)⟩

/-- C7: deletion removes exactly the Records whose displayed tuple equals the
input (same-second duplicates are all removed), preserves the multiplicity of
every non-matching Record, and is a no-op when nothing matches. -/
theorem delete_exact_tuple :
    ∀ (store : Store) (cc pp dd : Str) (tsSec : Nat),
      (∀ r ∈ delete_selected store cc pp dd tsSec,
        tupleMatch cc pp dd tsSec r = false) ∧
      (∀ r ∈ store, tupleMatch cc pp dd tsSec r = true →
        r ∉ delete_selected store cc pp dd tsSec) ∧
      (∀ r : Record, tupleMatch cc pp dd tsSec r = false →
        (delete_selected store cc pp dd tsSec).count r = store.count r) ∧
      ((∀ r ∈ store, tupleMatch cc pp dd tsSec r = false) →
        delete_selected store cc pp dd tsSec = store) := by
  intro store cc pp dd tsSec
  refine ⟨?_, ?_, ?_, ?_⟩
  · intro r hr
    have := (List.mem_filter.mp hr).2
    simpa using this
  · intro r hr hmatch hmem
    have := (List.mem_filter.mp hmem).2
    rw [hmatch] at this
    simp at this
  · intro r hr
    exact List.count_filter (by simp [hr])
  · intro h
    apply List.filter_eq_self.mpr
    intro r hr
    simp [h r hr]

/-- Witness for C7: deleting an absent tuple is a no-op, and deleting by a
second-precision tuple removes both same-second duplicates but not the
third record. -/
theorem delete_exact_tuple_witness :
    ((∀ r ∈ ([⟨['a'], ['w'], [], 10, 1500000⟩, ⟨['a'], ['w'], [], 10, 1700000⟩,
        ⟨['b'], ['w'], [], 20, 2500000⟩] : Store),
      tupleMatch ['z'] ['w'] [] 9 r = false) ∧
      delete_selected [⟨['a'], ['w'], [], 10, 1500000⟩,
          ⟨['a'], ['w'], [], 10, 1700000⟩, ⟨['b'], ['w'], [], 20, 2500000⟩]
          ['z'] ['w'] [] 9
        = [⟨['a'], ['w'], [], 10, 1500000⟩, ⟨['a'], ['w'], [], 10, 1700000⟩,
            ⟨['b'], ['w'], [], 20, 2500000⟩]) ∧
    delete_selected [⟨['a'], ['w'], [], 10, 1500000⟩,
        ⟨['a'], ['w'], [], 10, 1700000⟩, ⟨['b'], ['w'], [], 20, 2500000⟩]
        ['a'] ['w'] [] 1
      = [⟨['b'], ['w'], [], 20, 2500000⟩] :=
  ⟨⟨by decide,
    (delete_exact_tuple [⟨['a'], ['w'], [], 10, 1500000⟩,
        ⟨['a'], ['w'], [], 10, 1700000⟩, ⟨['b'], ['w'], [], 20, 2500000⟩]
        ['z'] ['w'] [] 9).2.2.2 (by decide)⟩,
    by decide⟩

theorem zipRecords_toColumns (s : Store) :
    zipRecords (s.map (·.contacts)) (s.map (·.payment_method))
      (s.map (·.details)) (s.map (·.amount)) (s.map (·.timestamp)) = s := by
  induction s with
  | nil => rfl
  | cons r rest ih => simp [zipRecords, ih]

/-- C9: saving any non-empty Record collection and loading it back yields the
same collection field for field, and loading with the backing file absent
yields the empty collection. -/
theorem save_load_roundtrip :
    (∀ s : Store, s ≠ [] → load_data (save_data s) = s) ∧
    load_data none = ([] : Store) := by
  refine ⟨fun s _ => ?_, rfl⟩
  show zipRecords (s.map (·.contacts)) (s.map (·.payment_method))
    (s.map (·.details)) (s.map (·.amount)) (s.map (·.timestamp)) = s
  exact zipRecords_toColumns s

/-- Witness for C9: a concrete two-row collection survives the round trip. -/
theorem save_load_roundtrip_witness :
    ([⟨['a', '$', '$'], ['w'], [], 10, 1⟩, ⟨['$', '$', 'b'], ['x'], ['d'], -20, 2⟩]
        : Store) ≠ [] ∧
    load_data (save_data [⟨['a', '$', '$'], ['w'], [], 10, 1⟩,
        ⟨['$', '$', 'b'], ['x'], ['d'], -20, 2⟩])
      = [⟨['a', '$', '$'], ['w'], [], 10, 1⟩, ⟨['$', '$', 'b'], ['x'], ['d'], -20, 2⟩] :=
  ⟨by decide, save_load_roundtrip.1 _ (by decide)⟩

/-- C2: refuted — `save_data` rewrites `accounts.parquet` in place with
`write_parquet(DATA_FILE)` (no temporary file, no rename), so a crash between
opening the destination for write and completing the stream leaves a
truncated, unreadable file: the previously saved contents, loadable before
the save, are gone. -/
theorem save_not_atomic :
    readBack (.full (toColumns [⟨['a'], ['w'], [], 10, 1⟩]))
      = some [⟨['a'], ['w'], [], 10, 1⟩] ∧
    runSteps [⟨['b'], ['w'], [], 20, 2⟩]
        (.full (toColumns [⟨['a'], ['w'], [], 10, 1⟩])) (save_steps.take 1)
      = .truncated ∧
    readBack (runSteps [⟨['b'], ['w'], [], 20, 2⟩]
        (.full (toColumns [⟨['a'], ['w'], [], 10, 1⟩])) (save_steps.take 1))
      = none :=
  ⟨rfl, rfl, rfl⟩

theorem newRow_goodContacts {s : Store} {a b c : Str}
    (hs : ∀ r ∈ s, ∃ x y z, splitD r.contacts = [x, y, z] ∧
      delim ∉ x ∧ delim ∉ y ∧ delim ∉ z)
    (ha : delim ∉ a) (hb : delim ∉ b) (hc : delim ∉ c) :
    ∃ x y z, splitD ((resolveContacts s a b c).getD (join3 a b c)) = [x, y, z] ∧
      delim ∉ x ∧ delim ∉ y ∧ delim ∉ z := by
  cases hres : resolveContacts s a b c with
  | some cc =>
    obtain ⟨rr, hrr, hrrcc⟩ := resolve_some_mem hres
    obtain ⟨x, y, z, hxyz, hx, hy, hz⟩ := hs rr hrr
    exact ⟨x, y, z, by rw [Option.getD_some, hrrcc]; exact hxyz, hx, hy, hz⟩
  | none =>
    exact ⟨a, b, c, by rw [Option.getD_none]; exact splitD_join3 ha hb hc,
      ha, hb, hc⟩

theorem runOps_preserves_goodContacts :
    ∀ (ops : List Op) (s : Store),
      (∀ op ∈ ops, cleanOp op = true) →
      (∀ r ∈ s, ∃ x y z, splitD r.contacts = [x, y, z] ∧
        delim ∉ x ∧ delim ∉ y ∧ delim ∉ z) →
      ∀ r ∈ runOps s ops, ∃ x y z, splitD r.contacts = [x, y, z] ∧
        delim ∉ x ∧ delim ∉ y ∧ delim ∉ z := by
  intro ops
  induction ops with
  | nil => intro s _ hs; exact hs
  | cons op rest ih =>
    intro s hclean hs
    have hop : cleanOp op = true := hclean op (List.mem_cons_self op rest)
    have hrest : ∀ o ∈ rest, cleanOp o = true :=
      fun o ho => hclean o (List.mem_cons_of_mem op ho)
    show ∀ r ∈ runOps (applyOp s op) rest, _
    apply ih (applyOp s op) hrest
    cases op with
    | delete cc pp dd tsSec =>
      intro r hr
      exact hs r (List.mem_of_mem_filter hr)
    | submit qq w t p d amt ts internal =>
      intro r hr
      simp only [cleanOp, Bool.and_eq_true, decide_eq_true_eq] at hop
      obtain ⟨hq, hw2, ht2⟩ := hop
      simp only [applyOp] at hr
      cases hsub : submit_entry s qq w t p d amt ts internal with
      | error e => rw [hsub] at hr; exact hs r hr
      | ok s' =>
        rw [hsub] at hr
        by_cases hall : strip qq = [] ∧ strip w = [] ∧ strip t = []
        · have herr : submit_entry s qq w t p d amt ts internal
              = .error .emptyContacts := by
            unfold submit_entry
            rw [if_pos hall]
          rw [herr] at hsub
          cases hsub
        · cases internal with
          | false =>
            rw [submit_entry_ok_false hall] at hsub
            have hs' : s ++ [(⟨(resolveContacts s (strip qq) (strip w)
                (strip t)).getD (join3 (strip qq) (strip w) (strip t)),
                p, strip d, amt, ts⟩ : Record)] = s' := by
              injection hsub
            rw [← hs'] at hr
            rcases List.mem_append.mp hr with hl | hnew
            · exact hs r hl
            · have hrr : r = ⟨(resolveContacts s (strip qq) (strip w)
                  (strip t)).getD (join3 (strip qq) (strip w) (strip t)),
                  p, strip d, amt, ts⟩ := by simpa using hnew
              rw [hrr]
              exact newRow_goodContacts hs (strip_no_delim hq)
                (strip_no_delim hw2) (strip_no_delim ht2)
          | true =>
            rw [submit_entry_ok_true hall] at hsub
            have hs' : s ++ [(⟨(resolveContacts s (strip qq) (strip w)
                (strip t)).getD (join3 (strip qq) (strip w) (strip t)),
                p, strip d, amt, ts⟩ : Record),
                ⟨internalContacts, internalMethod, strip d, -amt, ts⟩] = s' := by
              injection hsub
            rw [← hs'] at hr
            rcases List.mem_append.mp hr with hl | hnew
            · exact hs r hl
            · rcases List.mem_cons.mp hnew with hrr | hnew2
              · rw [hrr]
                exact newRow_goodContacts hs (strip_no_delim hq)
                  (strip_no_delim hw2) (strip_no_delim ht2)
              · have hrr : r = ⟨internalContacts, internalMethod,
                    strip d, -amt, ts⟩ := by simpa using hnew2
                rw [hrr]
                refine ⟨"内部交易".toList, "内部交易".toList, "内部交易".toList,
                  ?_, by decide, by decide, by decide⟩
                show splitD internalContacts
                  = ["内部交易".toList, "内部交易".toList, "内部交易".toList]
                decide

/-- C10: starting from the empty store, any sequence of submits and deletes
whose raw slot inputs contain no delimiter leaves every stored identity
splitting into exactly three fields, so unpacking a stored identity into
three slots never fails. -/
theorem identity_three_fields (ops : List Op)
    (h : ∀ op ∈ ops, cleanOp op = true) :
    ∀ r ∈ runOps [] ops, (splitD r.contacts).length = 3 := by
  intro r hr
  obtain ⟨x, y, z, hxyz, -, -, -⟩ :=
    runOps_preserves_goodContacts ops [] h (by simp) r hr
  rw [hxyz]
  rfl

/-- Witness for C10: a history of one internal-flagged submit and one delete,
all inputs delimiter-free, leaves only three-field identities. -/
theorem identity_three_fields_witness :
    (∀ op ∈ [Op.submit ['a'] [] [] ['w'] [] 100 7 true,
        Op.delete ['z'] ['w'] [] 0], cleanOp op = true) ∧
    ∀ r ∈ runOps [] [Op.submit ['a'] [] [] ['w'] [] 100 7 true,
        Op.delete ['z'] ['w'] [] 0], (splitD r.contacts).length = 3 :=
  ⟨by decide,
    identity_three_fields [Op.submit ['a'] [] [] ['w'] [] 100 7 true,
      Op.delete ['z'] ['w'] [] 0] (by decide)⟩

/-- C3 counterexample: a slot input containing the reserved delimiter is
neither rejected nor sanitized — the submission succeeds, the raw value is
stored inside the identity, and the persisted identity mis-splits into four
fields, from which the submitted slot value cannot be recovered. -/
theorem delimiter_input_stored_raw :
    submit_entry [] ['a', '$', 'b'] [] [] ['w'] [] 100 0 false
      = .ok [⟨['a', '$', 'b', '$', '$'], ['w'], [], 100, 0⟩] ∧
    (splitD ['a', '$', 'b', '$', '$']).length ≠ 3 ∧
    ['a', '$', 'b'] ∉ splitD ['a', '$', 'b', '$', '$'] :=
  ⟨rfl, by decide, by decide⟩

/-- C3 amended: the code does not reject or sanitize delimiter-containing
input; instead, provided every raw slot input in the history is free of the
delimiter, no field of any stored identity contains the delimiter, so no
persisted identity string is mis-split. -/
theorem delimiter_free_slots (ops : List Op)
    (h : ∀ op ∈ ops, cleanOp op = true) :
    ∀ r ∈ runOps [] ops, ∀ v ∈ splitD r.contacts, delim ∉ v := by
  intro r hr v hv
  obtain ⟨x, y, z, hxyz, hx, hy, hz⟩ :=
    runOps_preserves_goodContacts ops [] h (by simp) r hr
  rw [hxyz] at hv
  have : v = x ∨ v = y ∨ v = z := by simpa using hv
  rcases this with rfl | rfl | rfl
  · exact hx
  · exact hy
  · exact hz

/-- Witness for C3's amended form: after a delimiter-free submission the
stored identity's fields contain no delimiter. -/
theorem delimiter_free_slots_witness :
    (∀ op ∈ [Op.submit ['a'] ['b'] [] ['w'] [] 50 3 false], cleanOp op = true) ∧
    ∀ r ∈ runOps [] [Op.submit ['a'] ['b'] [] ['w'] [] 50 3 false],
      ∀ v ∈ splitD r.contacts, delim ∉ v :=
  ⟨by decide,
    delimiter_free_slots [Op.submit ['a'] ['b'] [] ['w'] [] 50 3 false] (by decide)⟩

/-- C6: the matching predicate shared by the submit-path scan and the
query-by-identity filter is exact slot-value equality inside the
delimiter-split composite, never substring matching: a non-empty value
matches a well-formed identity exactly when it equals one of its three slot
values; and the query path returns precisely the rows selected by this
predicate. -/
theorem match_exact_slot_equality :
    (∀ (a b c v : Str) (r : Record), v ≠ [] →
      delim ∉ a → delim ∉ b → delim ∉ c →
      r.contacts = join3 a b c →
      (matchesContact v r = true ↔ (v = a ∨ v = b ∨ v = c))) ∧
    (∀ (store : Store) (contactRaw : Str), strip contactRaw ≠ [] →
      query_records store contactRaw
        = .ok (store.filter (matchesContact (strip contactRaw)),
            ((store.filter (matchesContact (strip contactRaw))).map
              (·.amount)).sum)) := by
  constructor
  · intro a b c v r hv ha hb hc hr
    unfold matchesContact
    rw [hr, splitD_join3 ha hb hc]
    constructor
    · intro h
      simpa using List.mem_of_elem_eq_true h
    · intro h
      apply List.elem_eq_true_of_mem
      simpa using h
  · intro store contactRaw h
    unfold query_records
    rw [if_neg h]

/-- Witness for C6: the value `b` matches the stored identity `a$b$` on its
second slot (and on no other ground), and the query path filters by exactly
this predicate. -/
theorem match_exact_slot_equality_witness :
    ((['b'] : Str) ≠ [] ∧ delim ∉ (['a'] : Str) ∧ delim ∉ (['b'] : Str) ∧
      delim ∉ ([] : Str) ∧
      (⟨['a', '$', 'b', '$'], ['w'], [], 10, 1⟩ : Record).contacts
        = join3 ['a'] ['b'] [] ∧
      (matchesContact ['b'] ⟨['a', '$', 'b', '$'], ['w'], [], 10, 1⟩ = true ↔
        ((['b'] : Str) = ['a'] ∨ (['b'] : Str) = ['b'] ∨ (['b'] : Str) = []))) ∧
    (strip ['b'] ≠ [] ∧
      query_records [⟨['a', '$', 'b', '$'], ['w'], [], 10, 1⟩] ['b']
        = .ok ([⟨['a', '$', 'b', '$'], ['w'], [], 10, 1⟩].filter
              (matchesContact (strip ['b'])),
            (([⟨['a', '$', 'b', '$'], ['w'], [], 10, 1⟩].filter
              (matchesContact (strip ['b']))).map (·.amount)).sum)) :=
  ⟨⟨by decide, by decide, by decide, by decide, rfl,
    match_exact_slot_equality.1 ['a'] ['b'] [] ['b']
      ⟨['a', '$', 'b', '$'], ['w'], [], 10, 1⟩ (by decide) (by decide)
      (by decide) (by decide) rfl⟩,
   ⟨by decide,
    match_exact_slot_equality.2 [⟨['a', '$', 'b', '$'], ['w'], [], 10, 1⟩]
      ['b'] (by decide)⟩⟩

/-- C8 counterexample: three records of amount 0.30 (= 0.10 + 0.20,
quantized: 30 cents) each total exactly 0.90 on both the query-total path
and the totals-by-method path — not 0.60 as the claim states. -/
theorem decimal_sum_concrete :
    query_records [⟨['A', '$', '$'], "微信".toList, [], 30, 0⟩,
        ⟨['A', '$', '$'], "微信".toList, [], 30, 1⟩,
        ⟨['A', '$', '$'], "微信".toList, [], 30, 2⟩] ['A']
      = .ok ([⟨['A', '$', '$'], "微信".toList, [], 30, 0⟩,
          ⟨['A', '$', '$'], "微信".toList, [], 30, 1⟩,
          ⟨['A', '$', '$'], "微信".toList, [], 30, 2⟩], 90) ∧
    totals_table [⟨['A', '$', '$'], "微信".toList, [], 30, 0⟩,
        ⟨['A', '$', '$'], "微信".toList, [], 30, 1⟩,
        ⟨['A', '$', '$'], "微信".toList, [], 30, 2⟩] = [("微信".toList, 90)] ∧
    (90 : Int) ≠ 60 :=
  ⟨rfl, by decide, by decide⟩

theorem sum_map_filter_split (l : List Record) (p : Record → Bool) :
    ((l.filter p).map (·.amount)).sum
        + ((l.filter (fun r => ! p r)).map (·.amount)).sum
      = (l.map (·.amount)).sum := by
  induction l with
  | nil => rfl
  | cons r rest ih =>
    by_cases hp : p r = true
    · rw [List.filter_cons_of_pos hp,
        List.filter_cons_of_neg (by simp [hp])]
      simp only [List.map_cons, List.sum_cons]
      rw [← ih]
      ring
    · rw [List.filter_cons_of_neg hp,
        List.filter_cons_of_pos (by simp [Bool.not_eq_true] at hp ⊢; exact hp)]
      simp only [List.map_cons, List.sum_cons]
      rw [← ih]
      ring

theorem sum_totals_of_nodup :
    ∀ (ms : List Str) (l : List Record), ms.Nodup →
      (∀ r ∈ l, r.payment_method ∈ ms) →
      (ms.map (fun m => totalFor l m)).sum = (l.map (·.amount)).sum := by
  intro ms
  induction ms with
  | nil =>
    intro l _ hcov
    cases l with
    | nil => rfl
    | cons r rest => exact absurd (hcov r (by simp)) (by simp)
  | cons m rest ih =>
    intro l hnd hcov
    have hm_not : m ∉ rest := (List.nodup_cons.mp hnd).1
    have hnd' : rest.Nodup := (List.nodup_cons.mp hnd).2
    have hTF : ∀ m' ∈ rest, totalFor l m'
        = totalFor (l.filter (fun r => ! decide (r.payment_method = m))) m' := by
      intro m' hm'
      unfold totalFor
      congr 1
      congr 1
      rw [List.filter_filter]
      apply List.filter_congr
      intro r hr
      cases hpm : decide (r.payment_method = m') with
      | false => simp
      | true =>
        have hpm' : r.payment_method = m' := of_decide_eq_true hpm
        have hne : r.payment_method ≠ m := by
          rw [hpm']
          intro hEq
          exact hm_not (hEq ▸ hm')
        rw [decide_eq_false hne]
        rfl
    have hcov' : ∀ r ∈ l.filter (fun r => ! decide (r.payment_method = m)),
        r.payment_method ∈ rest := by
      intro r hr
      have h1 := List.mem_of_mem_filter hr
      have h2 := List.of_mem_filter hr
      have hne : r.payment_method ≠ m := by
        intro hEq
        rw [decide_eq_true hEq] at h2
        simp at h2
      rcases List.mem_cons.mp (hcov r h1) with hEq | hmem
      · exact absurd hEq hne
      · exact hmem
    have hrw : (rest.map (fun m' => totalFor l m')).sum
        = (rest.map (fun m' => totalFor
            (l.filter (fun r => ! decide (r.payment_method = m))) m')).sum := by
      congr 1
      exact List.map_eq_map_iff.mpr hTF
    simp only [List.map_cons, List.sum_cons]
    rw [hrw, ih (l.filter (fun r => ! decide (r.payment_method = m))) hnd' hcov']
    show ((l.filter (fun r => decide (r.payment_method = m))).map (·.amount)).sum
        + ((l.filter (fun r => ! decide (r.payment_method = m))).map
          (·.amount)).sum = _
    exact sum_map_filter_split l (fun r => decide (r.payment_method = m))

/-- C8 amended: amount summation is exact decimal addition on both paths —
three records of 0.10 + 0.20 (= 0.30) each total exactly 0.90 with no
rounding drift, every totals-table row equals the exact sum of its group's
quantized amounts, and the group totals together account exactly for the
grand total of all amounts. -/
theorem decimal_sum_exact :
    (query_records [⟨['A', '$', '$'], "微信".toList, [], 30, 0⟩,
        ⟨['A', '$', '$'], "微信".toList, [], 30, 1⟩,
        ⟨['A', '$', '$'], "微信".toList, [], 30, 2⟩] ['A']
      = .ok ([⟨['A', '$', '$'], "微信".toList, [], 30, 0⟩,
          ⟨['A', '$', '$'], "微信".toList, [], 30, 1⟩,
          ⟨['A', '$', '$'], "微信".toList, [], 30, 2⟩], 90)) ∧
    (∀ (store : Store), ∀ mt ∈ totals_table store,
      mt.2 = ((store.filter (fun r => r.payment_method = mt.1)).map
        (·.amount)).sum) ∧
    (∀ store : Store,
      ((totals_table store).map Prod.snd).sum = (store.map (·.amount)).sum) := by
  refine ⟨rfl, ?_, ?_⟩
  · intro store mt hmt
    obtain ⟨m, hm, hEq⟩ := List.mem_map.mp hmt
    rw [← hEq]
    rfl
  · intro store
    unfold totals_table
    rw [List.map_map]
    exact sum_totals_of_nodup (methodsOf store) store (List.nodup_dedup _)
      (fun r hr => List.mem_dedup.mpr (List.mem_map_of_mem _ hr))

/-- Witness for C8's amended form: the single totals-table row of the
concrete three-record store equals the exact group sum 0.90. -/
theorem decimal_sum_exact_witness :
    ("微信".toList, (90 : Int)) ∈ totals_table
        ([⟨['A', '$', '$'], "微信".toList, [], 30, 0⟩,
          ⟨['A', '$', '$'], "微信".toList, [], 30, 1⟩,
          ⟨['A', '$', '$'], "微信".toList, [], 30, 2⟩] : Store) ∧
    ("微信".toList, (90 : Int)).2
      = ((([⟨['A', '$', '$'], "微信".toList, [], 30, 0⟩,
          ⟨['A', '$', '$'], "微信".toList, [], 30, 1⟩,
          ⟨['A', '$', '$'], "微信".toList, [], 30, 2⟩] : Store).filter
            (fun r => r.payment_method = ("微信".toList, (90 : Int)).1)).map
          (·.amount)).sum :=
  ⟨by decide,
    decimal_sum_exact.2.1 ([⟨['A', '$', '$'], "微信".toList, [], 30, 0⟩,
        ⟨['A', '$', '$'], "微信".toList, [], 30, 1⟩,
        ⟨['A', '$', '$'], "微信".toList, [], 30, 2⟩] : Store)
      ("微信".toList, (90 : Int)) (by decide)⟩
